import Mathlib

/-!
Verification of the TokenScraper blockchain-collector against its
natural-language specification.

The definitions below are a shallow embedding of the JavaScript source:

* `blockchain-collector/collector.js` — scan-cycle driver
  (`fetchAndStoreTokens`, `getLastProcessedBlock`, `processTokensInBatches`,
  `getDeployerFromTransaction`, `shouldExcludeAddress`);
* `blockchain-collector/services/tokenStorageService.js` — `storeTokens`;
* `blockchain-collector/services/poolService.js` — `findV3Pools`;
* `blockchain-collector/utils/eventDecoder.js` — `decodeTokenCreatedEvent`.

Addresses and transaction hashes are modelled as natural numbers (the numeric
value of the hex string; `toLowerCase` does not change that value, so it is the
identity in this model), machine delays as rationals (JavaScript numbers; all
values reached here are exact in binary floating point), and the external
collaborators (RPC provider, MongoDB store) as explicit function-valued
environments or state threaded through the definitions.
-/

namespace TokenScraper

/-! ## Rate limiting and batch processing (`collector.js` lines 40-52, 182-206) -/

/-- The `RATE_LIMIT` configuration object of `collector.js`. -/
structure RateLimitConfig where
  initialDelay : ℚ
  maxDelay : ℚ
  backoffFactor : ℚ
deriving DecidableEq, Repr

/-- `RATE_LIMIT = { initialDelay: 1000, maxDelay: 30000, backoffFactor: 1.5 }`. -/
def RATE_LIMIT : RateLimitConfig :=
  { initialDelay := 1000, maxDelay := 30000, backoffFactor := 3 / 2 }

/-- `BATCH_CONFIG.maxBatchSize = 50` in `collector.js`. -/
def maxBatchSize : ℕ := 50

/-- The token fields other than `blockNumber` that the collector attaches to a
token object (`collector.js` lines 285-295).  `supply`, `deployer` and
`transactionHash` may be absent in some collector versions, hence `Option`. -/
structure TokenFields where
  contractAddress : String
  name : String
  symbol : String
  decimals : ℕ
  supply : Option String
  deployer : Option String
  createdAt : ℕ
  transactionHash : Option String
deriving DecidableEq, Repr

/-- A token object as built by the collector and as stored by MongoDB: the
non-key fields plus `blockNumber`. -/
structure TokenRecord where
  fields : TokenFields
  blockNumber : ℕ
deriving DecidableEq, Repr

/-- The batch partition loop of `processTokensInBatches`
(`for (let i = 0; i < tokens.length; i += BATCH_CONFIG.maxBatchSize)`):
successive slices of `maxBatchSize` tokens. -/
def makeBatches : List TokenRecord → List (List TokenRecord)
  | [] => []
  | t :: ts => ((t :: ts).take maxBatchSize) :: makeBatches ((t :: ts).drop maxBatchSize)
termination_by l => l.length
decreasing_by
  simp only [List.length_drop, List.length_cons, maxBatchSize]
  omega

/-- One update of the `delay` variable in the batch loop of
`processTokensInBatches`: on success the delay grows by `backoffFactor`
(capped at `maxDelay`) but only between batches
(`if (batches.indexOf(batch) < batches.length - 1)`); on a caught error it
grows by `backoffFactor * 2` (capped at `maxDelay`). -/
def nextDelay (cfg : RateLimitConfig) (success isLast : Bool) (d : ℚ) : ℚ :=
  if success then
    if isLast then d else min (d * cfg.backoffFactor) cfg.maxDelay
  else
    min (d * cfg.backoffFactor * 2) cfg.maxDelay

/-- The `for (const batch of batches)` loop of `processTokensInBatches`.
`outcomes` is the environment's verdict for each `storeTokens` call (`true`
when the call resolves, `false` when it throws; a missing entry defaults to
success).  The result records, in order, every batch handed to
`tokenStorageService.storeTokens` and every value taken by the `delay`
variable.  A thrown batch is caught inside the loop body, so the recursion
always continues with the remaining batches. -/
def batchLoop (cfg : RateLimitConfig) :
    List (List TokenRecord) → List Bool → ℚ → List (List TokenRecord) × List ℚ
  | [], _, d => ([], [d])
  | b :: bs, outs, d =>
    let ok := outs.headD true
    let r := batchLoop cfg bs outs.tail (nextDelay cfg ok bs.isEmpty d)
    (b :: r.1, d :: r.2)

/-- `processTokensInBatches` with the rate-limit configuration as a parameter
(the source fixes it to `RATE_LIMIT`): partition the tokens into batches, then
run the storage loop from `initialDelay`. -/
def processTokensInBatchesWith (cfg : RateLimitConfig) (tokens : List TokenRecord)
    (outcomes : List Bool) : List (List TokenRecord) × List ℚ :=
  batchLoop cfg (makeBatches tokens) outcomes cfg.initialDelay

/-- `processTokensInBatches` as in `collector.js`, i.e. at `RATE_LIMIT`. -/
def processTokensInBatches (tokens : List TokenRecord) (outcomes : List Bool) :
    List (List TokenRecord) × List ℚ :=
  processTokensInBatchesWith RATE_LIMIT tokens outcomes

/-! ## Scan-cycle range and cursor (`collector.js` lines 160-179, 211-332) -/

/-- `MAX_BLOCKS_PER_SCAN = 500` (`collector.js` line 236). -/
def MAX_BLOCKS_PER_SCAN : ℕ := 500

/-- `CHUNK_SIZE = 1000` (`collector.js` line 247). -/
def CHUNK_SIZE : ℕ := 1000

/-- `getLastProcessedBlock`: read `lastBlock` from the state file; any read or
parse failure (in particular a missing file on cold start) yields `0`.  The
argument is the content of the state file, `none` when unreadable. -/
def getLastProcessedBlock (stateFile : Option ℕ) : ℕ :=
  match stateFile with
  | some lastBlock => lastBlock
  | none => 0

/-- `scanRange = Math.min(currentBlock - lastProcessedBlock, MAX_BLOCKS_PER_SCAN)`
(`collector.js` lines 238-241).  The cycle only reaches this line when
`lastProcessedBlock < currentBlock`, where truncated subtraction agrees with
JavaScript subtraction. -/
def scanRange (lastProcessedBlock currentBlock : ℕ) : ℕ :=
  min (currentBlock - lastProcessedBlock) MAX_BLOCKS_PER_SCAN

/-- `startBlock = Math.max(0, currentBlock - scanRange)` (`collector.js`
line 243); on naturals the `max 0` clamp is the identity. -/
def startBlock (lastProcessedBlock currentBlock : ℕ) : ℕ :=
  max 0 (currentBlock - scanRange lastProcessedBlock currentBlock)

/-- The chunk loop
`for (let chunkStart = startBlock; chunkStart < currentBlock; chunkStart += CHUNK_SIZE)`
with `chunkEnd = Math.min(chunkStart + CHUNK_SIZE - 1, currentBlock)`:
the list of `(fromBlock, toBlock)` ranges handed to `provider.getLogs`. -/
def chunkRanges (chunkStart currentBlock : ℕ) : List (ℕ × ℕ) :=
  if chunkStart < currentBlock then
    (chunkStart, min (chunkStart + CHUNK_SIZE - 1) currentBlock) ::
      chunkRanges (chunkStart + CHUNK_SIZE) currentBlock
  else []
termination_by currentBlock - chunkStart
decreasing_by
  simp only [CHUNK_SIZE]
  omega

/-- The `getLogs` ranges issued by one cycle of `fetchAndStoreTokens`, given the
cursor value and the observed current block. -/
def scanChunks (lastProcessedBlock currentBlock : ℕ) : List (ℕ × ℕ) :=
  chunkRanges (startBlock lastProcessedBlock currentBlock) currentBlock

/-- A block is queried by the cycle when some issued `getLogs` range covers it. -/
def coveredBlock (chunks : List (ℕ × ℕ)) (b : ℕ) : Prop :=
  ∃ c ∈ chunks, c.1 ≤ b ∧ b ≤ c.2

instance (chunks : List (ℕ × ℕ)) (b : ℕ) : Decidable (coveredBlock chunks b) := by
  unfold coveredBlock
  infer_instance

/-- Observable events of one `fetchAndStoreTokens` cycle, in program order. -/
inductive CycleEvent where
  /-- a `provider.getLogs` call over `[fromBlock, toBlock]` -/
  | queryLogs (fromBlock toBlock : ℕ)
  /-- a `tokenStorageService.storeTokens` call on one batch -/
  | persistBatch (batch : List TokenRecord)
  /-- a `saveLastProcessedBlock` call writing `value` -/
  | saveCursor (value : ℕ)
deriving DecidableEq, Repr

/-- The event trace of one `fetchAndStoreTokens` cycle (`collector.js`
lines 211-332).  `lastProcessedBlock` is the cursor read at cycle start, `cur`
the observed current block, `tokens` the `allTokens` accumulated by the chunk
loop, and `outcomes` the per-batch success verdicts of the storage layer.  When
`cur <= lastProcessedBlock` the cycle returns before querying or writing
anything.  Otherwise it queries chunk by chunk, hands all accumulated tokens to
`processTokensInBatches` when there are any (each failed batch is caught inside
that loop), and finally calls `saveLastProcessedBlock(currentBlock)`. -/
def fetchAndStoreTokensTrace (lastProcessedBlock cur : ℕ) (tokens : List TokenRecord)
    (outcomes : List Bool) : List CycleEvent :=
  if cur ≤ lastProcessedBlock then []
  else
    ((scanChunks lastProcessedBlock cur).map fun c => CycleEvent.queryLogs c.1 c.2)
      ++ (if 0 < tokens.length then
            (processTokensInBatches tokens outcomes).1.map CycleEvent.persistBatch
          else [])
      ++ [CycleEvent.saveCursor cur]

/-! ## Token storage (`tokenStorageService.js` lines 9-61) -/

/-- `'x'.toLowerCase()` on the contract-address string. -/
def lowerStr (s : String) : String := s.map Char.toLower

/-- The MongoDB `tokens` collection, keyed by the (lowercased) value used in
the `updateOne` filter. -/
def TokenStore : Type := String → Option TokenRecord

/-- Point update of the store at one key. -/
def TokenStore.set (store : TokenStore) (key : String) (doc : TokenRecord) : TokenStore :=
  fun a => if a = key then some doc else store a

/-- The effect of the `operations` array built by `storeTokens` under
`Token.bulkWrite`, one `updateOne` per token in order:
filter on `contractAddress: token.contractAddress.toLowerCase()` with
`upsert: true`, `$set` of every token field except `blockNumber` (spread with
`blockNumber: undefined`), and `$setOnInsert: { blockNumber: token.blockNumber }`.
Returns the updated store, the `upsertedCount` and the `modifiedCount` (MongoDB
counts a matched document as modified only when the update actually changed
it). -/
def runBulk : List TokenRecord → TokenStore → TokenStore × ℕ × ℕ
  | [], store => (store, 0, 0)
  | t :: ts, store =>
    let key := lowerStr t.fields.contractAddress
    match store key with
    | some doc =>
      let updated : TokenRecord := { fields := t.fields, blockNumber := doc.blockNumber }
      let r := runBulk ts (store.set key updated)
      (r.1, r.2.1, (if updated = doc then 0 else 1) + r.2.2)
    | none =>
      let inserted : TokenRecord := { fields := t.fields, blockNumber := t.blockNumber }
      let r := runBulk ts (store.set key inserted)
      (r.1, 1 + r.2.1, r.2.2)

/-- The result object returned by `storeTokens`. -/
structure StoreResult where
  success : Bool
  newTokens : ℕ
  updatedTokens : ℕ
deriving DecidableEq, Repr

/-- `storeTokens` on its successful bulk-write path: an empty input returns
immediately with zero counts; otherwise the bulk write runs and the counts are
reported as `newTokens`/`updatedTokens`.  (The `catch` fallback to
`storeTokensIndividually` is only reached when `bulkWrite` itself throws, which
is outside this successful-path model.) -/
def storeTokens (tokens : List TokenRecord) (store : TokenStore) : TokenStore × StoreResult :=
  if tokens.length = 0 then (store, { success := true, newTokens := 0, updatedTokens := 0 })
  else
    let r := runBulk tokens store
    (r.1, { success := true, newTokens := r.2.1, updatedTokens := r.2.2 })

/-! ## Deployer resolution (`collector.js` lines 54-158; the final cascade is
the `finalDeployer` selection of the collector variant whose
`fetchAndStoreTokens` combines the `_deployer` parameter, the legacy event
deployer and the transaction sender, lines 208-222 of that file) -/

/-- `KNOWN_DEPLOYERS`: transaction hash to manually verified deployer. -/
def KNOWN_DEPLOYERS : List (ℕ × ℕ) :=
  [(0xd45006335d15893457b4cf57bd2528f26432c99ac3b8b086a27ac99bff5bf385,
    0x86e8d2532D531ECEBa1316f5E545C8AF7B650146),
   (0x27257bcbb52cff88ac7272cfa53fafad83a141d1778593ebb74e2ecbf159cc53,
    0xCA5799410f108E44Ca5fb1FF38f96c3aC5926Fac),
   (0x26ba12be030c1ad051d20a97df802661236f98b4c1117c39b9ed05506a354aa2,
    0xe5351fbA63916F69A9f4A437d5BB5E2da5a0672f),
   (0xd1392dd1936c7841588a11a65cb252c5dddd9ede0a010727da38b2a154254d09,
    0x01eEbDB7F6855f1DdFD38C1131d67E8Ed462eC5E)]

/-- `EXCLUDED_DEPLOYERS`: the operational relay address and the zero address. -/
def EXCLUDED_DEPLOYERS : List ℕ :=
  [0x903878B49BBA6c55d14857fBc25805De7825e231, 0x0000000000000000000000000000000000000000]

/-- `shouldExcludeAddress`: a missing address (`!address`) is excluded, and so
is any address whose (lowercased, i.e. numeric) value is in
`EXCLUDED_DEPLOYERS`. -/
def shouldExcludeAddress : Option ℕ → Bool
  | none => true
  | some a => EXCLUDED_DEPLOYERS.contains a

/-- `ethers.isAddress`: a syntactically valid 20-byte address. -/
def isAddress (a : ℕ) : Bool := a < 2 ^ 160

/-- The 4-byte selector of the KOA factory `deployToken` method. -/
def deployTokenMethodId : ℕ := 0xaaf29850

/-- A transaction as seen through `provider.getTransaction`: its sender
(`tx.from`, absent for the `tx?.from || 'unknown'` fallback), whether calldata
is present (`tx.data`), the leading 4-byte method selector of that calldata,
and the argument list produced by `koaFactoryInterface.parseTransaction`
(`none` when decoding throws). -/
structure Transaction where
  sender : Option ℕ
  hasData : Bool
  methodId : ℕ
  decodedArgs : Option (List ℕ)
deriving DecidableEq, Repr

/-- Which source produced the value returned by `getDeployerFromTransaction`. -/
inductive ParamSource where
  /-- the `KNOWN_DEPLOYERS` override table -/
  | override
  /-- the decoded `_deployer` argument of the transaction calldata -/
  | txInput
deriving DecidableEq, Repr

/-- `getDeployerFromTransaction` (without the memoisation cache, which only
replays an earlier return value): consult `KNOWN_DEPLOYERS` first; otherwise
fetch the transaction (`none` models both a failed fetch and a transaction
without data, each of which returns `null`), check the selector, decode the
calldata and accept `args[6]` only if it is a syntactically valid address and
not excluded; every other outcome is `null`.  The result is tagged with the
source that produced it. -/
def getDeployerFromTransaction (txHash : ℕ) (tx : Option Transaction) :
    Option (ℕ × ParamSource) :=
  match (KNOWN_DEPLOYERS.lookup txHash : Option ℕ) with
  | some knownDeployer => some (knownDeployer, ParamSource.override)
  | none =>
    match tx with
    | none => none
    | some t =>
      if ¬ t.hasData then none
      else if t.methodId = deployTokenMethodId then
        match t.decodedArgs with
        | none => none
        | some args =>
          match args.get? 6 with
          | none => none
          | some deployer =>
            if isAddress deployer ∧ shouldExcludeAddress (some deployer) = false then
              some (deployer, ParamSource.txInput)
            else none
      else none

/-- The path that produced the `finalDeployer` of the resolution cascade. -/
inductive ResolvedVia where
  /-- path 1: the `KNOWN_DEPLOYERS` override table -/
  | overrideTable
  /-- path 2: the decoded `_deployer` calldata argument -/
  | txInput
  /-- path 3: the `legacyDeployer` field of the decoded event -/
  | legacyEvent
  /-- path 4: the transaction sender (`tx?.from || 'unknown'`) -/
  | txSender
deriving DecidableEq, Repr

/-- A resolved deployer value: an address, or the literal `'unknown'`. -/
inductive DeployerValue where
  /-- a concrete address -/
  | addr (a : ℕ)
  /-- the `'unknown'` fallback string -/
  | unknown
deriving DecidableEq, Repr

/-- The `finalDeployer` cascade of `fetchAndStoreTokens`:
use `paramDeployer` when present and not excluded, else the event's
`legacyDeployer` when not excluded, else `tx?.from || 'unknown'` with no
exclusion check. -/
def resolveFinalDeployer (txHash : ℕ) (tx : Option Transaction) (legacyDeployer : ℕ) :
    DeployerValue × ResolvedVia :=
  match getDeployerFromTransaction txHash tx with
  | some (paramDeployer, src) =>
    if shouldExcludeAddress (some paramDeployer) = false then
      (DeployerValue.addr paramDeployer,
       match src with
       | ParamSource.override => ResolvedVia.overrideTable
       | ParamSource.txInput => ResolvedVia.txInput)
    else if shouldExcludeAddress (some legacyDeployer) = false then
      (DeployerValue.addr legacyDeployer, ResolvedVia.legacyEvent)
    else
      match tx with
      | some t =>
        match t.sender with
        | some f => (DeployerValue.addr f, ResolvedVia.txSender)
        | none => (DeployerValue.unknown, ResolvedVia.txSender)
      | none => (DeployerValue.unknown, ResolvedVia.txSender)
  | none =>
    if shouldExcludeAddress (some legacyDeployer) = false then
      (DeployerValue.addr legacyDeployer, ResolvedVia.legacyEvent)
    else
      match tx with
      | some t =>
        match t.sender with
        | some f => (DeployerValue.addr f, ResolvedVia.txSender)
        | none => (DeployerValue.unknown, ResolvedVia.txSender)
      | none => (DeployerValue.unknown, ResolvedVia.txSender)

/-! ## Pool discovery (`poolService.js` lines 6-109) -/

/-- One entry of `COMMON_PAIRS`. -/
structure PairedToken where
  address : ℕ
  symbol : String
deriving DecidableEq, Repr

/-- The commonly paired tokens on Base: WETH, USDbC, USDC. -/
def COMMON_PAIRS : List PairedToken :=
  [{ address := 0x4200000000000000000000000000000000000006, symbol := "WETH" },
   { address := 0xd9aAEc86B65D86f6A7B5B1b0c42FFA531710b6CA, symbol := "USDbC" },
   { address := 0x833589fCD6eDb6E08f4c7C32D4f71b54bdA02913, symbol := "USDC" }]

/-- The Uniswap V3 fee tiers probed. -/
def FEE_TIERS : List ℕ := [500, 3000, 10000]

/-- The read-only chain calls pool discovery performs.  A `none` result models
a call that throws (caught per probe and skipped). -/
structure PoolChain where
  getPool : ℕ → ℕ → ℕ → Option ℕ
  liquidity : ℕ → Option ℕ
  token0 : ℕ → Option ℕ
  token1 : ℕ → Option ℕ

/-- A pool record pushed onto the `pools` array by `findV3Pools`.  Addresses
are numeric so the `.toLowerCase()` normalisations are identities; `liquidity`
is the numeric value later string-encoded. -/
structure PoolEntry where
  address : ℕ
  pairWith : ℕ
  pairSymbol : String
  fee : ℕ
  liquidity : ℕ
deriving DecidableEq, Repr

/-- The body of the inner probe loop of `findV3Pools` for one
`(pair, fee)` combination: look the pool up in the factory, skip a zero
address, read its liquidity and its two constituent tokens, skip the pool when
neither side is the probed token, and otherwise build the entry to push.  Any
thrown read (`none`) is caught and the probe is skipped. -/
def probePool (env : PoolChain) (tokenAddress : ℕ) (pair : PairedToken) (fee : ℕ) :
    Option PoolEntry :=
  match env.getPool tokenAddress pair.address fee with
  | none => none
  | some poolAddress =>
    if poolAddress = 0 then none
    else
      match env.liquidity poolAddress with
      | none => none
      | some liq =>
        match env.token0 poolAddress, env.token1 poolAddress with
        | some t0, some t1 =>
          if t0 ≠ tokenAddress ∧ t1 ≠ tokenAddress then none
          else some { address := poolAddress, pairWith := pair.address,
                      pairSymbol := pair.symbol, fee := fee, liquidity := liq }
        | some _, none => none
        | none, _ => none

/-- `findV3Pools`: probe every `COMMON_PAIRS` x `FEE_TIERS` combination in
order, accumulating the successful probes. -/
def findV3Pools (env : PoolChain) (tokenAddress : ℕ) : List PoolEntry :=
  COMMON_PAIRS.flatMap fun pair =>
    FEE_TIERS.filterMap fun fee => probePool env tokenAddress pair fee

/-! ## Event decoding (`eventDecoder.js` lines 10-39) -/

/-- A raw log record as passed to the decoder: its ABI-encoded `data` payload
(abstract byte string), the block number and the transaction hash. -/
structure LogRecord where
  data : List ℕ
  blockNumber : ℕ
  transactionHash : ℕ
deriving DecidableEq, Repr

/-- The eight fields of the `TokenCreated` event tuple
`(address, uint256, address, string, string, uint256, address, uint256)`. -/
structure DecodedTokenEvent where
  token : ℕ
  tokenId : ℕ
  legacyDeployer : ℕ
  name : String
  symbol : String
  supply : ℕ
  recipient : ℕ
  recipientAmount : ℕ
deriving DecidableEq, Repr

/-- The object returned by `decodeTokenCreatedEvent`. -/
structure DecodedTokenRecord where
  contractAddress : ℕ
  name : String
  symbol : String
  decimals : ℕ
  createdAt : ℕ
  deployer : ℕ
  blockNumber : ℕ
deriving DecidableEq, Repr

/-- `decodeTokenCreatedEvent`.  `abiDecode` is the external
`ethers.AbiCoder.defaultAbiCoder().decode` primitive applied to the fixed
eight-field layout (`none` when it throws, which the decoder catches and maps
to `null`); `now` is the wall clock read by `new Date()` in the call.  On
success the returned record keeps the token address, name, symbol and legacy
deployer from the payload, fixes `decimals` to 18, stamps `createdAt` with the
clock, and copies the log's block number. -/
def decodeTokenCreatedEvent (abiDecode : List ℕ → Option DecodedTokenEvent)
    (log : LogRecord) (now : ℕ) : Option DecodedTokenRecord :=
  match abiDecode log.data with
  | none => none
  | some d =>
    some { contractAddress := d.token, name := d.name, symbol := d.symbol,
           decimals := 18, createdAt := now, deployer := d.legacyDeployer,
           blockNumber := log.blockNumber }

/-- A decoded record with its `createdAt` timestamp blanked, for comparing the
event-derived content of two decoder calls. -/
def dropCreatedAt (r : DecodedTokenRecord) : DecodedTokenRecord :=
  { r with createdAt := 0 }

/-! ## Derived forms and concrete sample inputs used in the proofs -/

/-- Closed form of the document a bulk write leaves at one key, given the
document previously at that key (`sa`) and the ordered sub-list `l` of written
tokens whose lowercased `contractAddress` is that key: no write leaves `sa`;
otherwise the fields come from the last write and the block number from the
pre-existing document when there was one, else from the first (inserting)
write.  The `0` default is unreachable (`l.head?` is `some` whenever
`l.getLast?` is). -/
def finalDoc (sa : Option TokenRecord) (l : List TokenRecord) : Option TokenRecord :=
  match l.getLast? with
  | none => sa
  | some tl =>
    some { fields := tl.fields,
           blockNumber :=
             match sa with
             | some d => d.blockNumber
             | none =>
               match l.head? with
               | some tf => tf.blockNumber
               | none => 0 }

/-- A concrete token record used to instantiate theorems. -/
def sampleToken : TokenRecord :=
  { fields := { contractAddress := "0xabc", name := "Koa", symbol := "KOA",
                decimals := 18, supply := some "1000", deployer := some "0xdef",
                createdAt := 1700000000, transactionHash := some "0x11" },
    blockNumber := 4100 }

/-- The operational relay address of `EXCLUDED_DEPLOYERS`. -/
def relayAddress : ℕ := 0x903878B49BBA6c55d14857fBc25805De7825e231

/-- A transaction whose sender is the excluded relay address and whose calldata
is not the factory deploy method. -/
def txFromRelay : Transaction :=
  { sender := some relayAddress, hasData := true, methodId := 0, decodedArgs := none }

/-- A transaction whose calldata decodes to `_deployer = 5` (argument index 6
of the `deployToken` signature). -/
def txWithDeployerArg : Transaction :=
  { sender := some 7, hasData := true, methodId := deployTokenMethodId,
    decodedArgs := some [0, 0, 0, 0, 0, 0, 5] }

/-- A concrete chain environment for pool discovery: the factory knows one
WETH pool at fee tier 500 (address 77, liquidity 42) whose `token0` is the
probed token 123; every other probe returns the zero address. -/
def samplePoolChain : PoolChain :=
  { getPool := fun _ pairAddress fee =>
      if pairAddress = 0x4200000000000000000000000000000000000006 ∧ fee = 500 then some 77
      else some 0,
    liquidity := fun _ => some 42,
    token0 := fun _ => some 123,
    token1 := fun _ => some 9 }

/-- The pool entry that `samplePoolChain` yields for token 123. -/
def samplePoolEntry : PoolEntry :=
  { address := 77, pairWith := 0x4200000000000000000000000000000000000006,
    pairSymbol := "WETH", fee := 500, liquidity := 42 }

/-- A constant ABI-decode primitive: every payload decodes to the same event
tuple. -/
def constDecode : List ℕ → Option DecodedTokenEvent :=
  fun _ => some { token := 1, tokenId := 0, legacyDeployer := 2, name := "Koa",
                  symbol := "KOA", supply := 10, recipient := 3, recipientAmount := 4 }

/-- A concrete raw log record. -/
def sampleLog : LogRecord := { data := [], blockNumber := 7, transactionHash := 3 }

/-- A document stored before a bulk write, with block number 4000. -/
def sampleStoredDoc : TokenRecord :=
  { fields := { contractAddress := "0xABC", name := "Old", symbol := "OLD",
                decimals := 18, supply := none, deployer := none,
                createdAt := 0, transactionHash := none },
    blockNumber := 4000 }

/-- A store holding exactly one document, at key `"0xabc"`. -/
def sampleStore : TokenStore :=
  fun a => if a = "0xabc" then some sampleStoredDoc else none

/-! ## Lemmas about the batch loop -/

/-- Every batch of the partition is handed to the storage layer, whatever the
outcomes: the storage-call trace is the batch list itself. -/
theorem batchLoop_fst (cfg : RateLimitConfig) (bs : List (List TokenRecord))
    (outs : List Bool) (d : ℚ) : (batchLoop cfg bs outs d).1 = bs := by
  induction bs generalizing outs d with
  | nil => rfl
  | cons b bs ih => simp [batchLoop, ih]

/-- The delay trace starts with the delay the loop was entered with. -/
theorem batchLoop_getD_zero (cfg : RateLimitConfig) (bs : List (List TokenRecord))
    (outs : List Bool) (d : ℚ) : (batchLoop cfg bs outs d).2.getD 0 0 = d := by
  cases bs <;> simp [batchLoop]

/-- The delay trace starts with the delay the loop was entered with
(`head?` form). -/
theorem batchLoop_head (cfg : RateLimitConfig) (bs : List (List TokenRecord))
    (outs : List Bool) (d : ℚ) : (batchLoop cfg bs outs d).2.head? = some d := by
  cases bs <;> simp [batchLoop]

/-- A delay update never lowers the delay, given a nonnegative delay below the
cap and a backoff factor of at least one. -/
theorem le_nextDelay (cfg : RateLimitConfig) (ok isLast : Bool) (d : ℚ)
    (h0 : 0 ≤ d) (hM : d ≤ cfg.maxDelay) (hf : 1 ≤ cfg.backoffFactor) :
    d ≤ nextDelay cfg ok isLast d := by
  unfold nextDelay
  rcases ok with _ | _
  · exact le_min (by nlinarith) hM
  · rcases isLast with _ | _
    · exact le_min (by nlinarith) hM
    · simp

/-- A delay update never exceeds `maxDelay`, given a delay below the cap. -/
theorem nextDelay_le_max (cfg : RateLimitConfig) (ok isLast : Bool) (d : ℚ)
    (hM : d ≤ cfg.maxDelay) : nextDelay cfg ok isLast d ≤ cfg.maxDelay := by
  unfold nextDelay
  rcases ok with _ | _
  · exact min_le_right _ _
  · rcases isLast with _ | _
    · exact min_le_right _ _
    · simpa using hM

/-- A delay update preserves nonnegativity. -/
theorem nextDelay_nonneg (cfg : RateLimitConfig) (ok isLast : Bool) (d : ℚ)
    (h0 : 0 ≤ d) (hM0 : 0 ≤ cfg.maxDelay) (hf : 1 ≤ cfg.backoffFactor) :
    0 ≤ nextDelay cfg ok isLast d := by
  unfold nextDelay
  rcases ok with _ | _
  · exact le_min (by nlinarith) hM0
  · rcases isLast with _ | _
    · exact le_min (by nlinarith) hM0
    · simpa using h0

/-- Within one batch loop the delay sequence is non-decreasing and stays below
`maxDelay`. -/
theorem batchLoop_mono_bounded (cfg : RateLimitConfig) (bs : List (List TokenRecord))
    (outs : List Bool) (d : ℚ) (h0 : 0 ≤ d) (hM : d ≤ cfg.maxDelay)
    (hf : 1 ≤ cfg.backoffFactor) :
    List.Chain' (· ≤ ·) (batchLoop cfg bs outs d).2 ∧
      ∀ x ∈ (batchLoop cfg bs outs d).2, x ≤ cfg.maxDelay := by
  induction bs generalizing outs d with
  | nil =>
    refine ⟨by simp [batchLoop], ?_⟩
    intro x hx
    simp only [batchLoop, List.mem_singleton] at hx
    simpa [hx] using hM
  | cons b bs ih =>
    have hM0 : 0 ≤ cfg.maxDelay := le_trans h0 hM
    have h0' := nextDelay_nonneg cfg (outs.headD true) bs.isEmpty d h0 hM0 hf
    have hM' := nextDelay_le_max cfg (outs.headD true) bs.isEmpty d hM
    obtain ⟨ihc, ihb⟩ := ih outs.tail (nextDelay cfg (outs.headD true) bs.isEmpty d) h0' hM'
    constructor
    · show List.Chain' (· ≤ ·)
        (d :: (batchLoop cfg bs outs.tail (nextDelay cfg (outs.headD true) bs.isEmpty d)).2)
      rw [List.chain'_cons']
      refine ⟨?_, ihc⟩
      intro y hy
      rw [batchLoop_head] at hy
      simp only [Option.mem_def, Option.some.injEq] at hy
      subst hy
      exact le_nextDelay cfg (outs.headD true) bs.isEmpty d h0 hM hf
    · intro x hx
      simp only [batchLoop, List.mem_cons] at hx
      rcases hx with hx | hx
      · simpa [hx] using hM
      · exact ihb x hx

/-- A failed batch at position `i` escalates the delay to
`min(delay * backoffFactor * 2, maxDelay)`. -/
theorem batchLoop_failure_step (cfg : RateLimitConfig) (bs : List (List TokenRecord))
    (outs : List Bool) (d : ℚ) (i : ℕ) (hi : i < bs.length)
    (hout : outs.getD i true = false) :
    (batchLoop cfg bs outs d).2.getD (i + 1) 0 =
      min ((batchLoop cfg bs outs d).2.getD i 0 * cfg.backoffFactor * 2) cfg.maxDelay := by
  induction bs generalizing outs d i with
  | nil => simp at hi
  | cons b bs ih =>
    cases i with
    | zero =>
      have hok : outs.headD true = false := by
        cases outs with
        | nil => simp at hout
        | cons o os => simpa using hout
      simp only [batchLoop, List.getD_cons_succ, List.getD_cons_zero]
      rw [batchLoop_getD_zero, hok]
      simp [nextDelay]
    | succ j =>
      have hout' : outs.tail.getD j true = false := by
        cases outs with
        | nil => simp at hout
        | cons o os => simpa using hout
      have hj : j < bs.length := by simpa using Nat.lt_of_succ_lt_succ hi
      simp only [batchLoop, List.getD_cons_succ]
      exact ih outs.tail (nextDelay cfg (outs.headD true) bs.isEmpty d) j hj hout'

/-- Claim C4: within one invocation of `processTokensInBatches`, for any token
sequence and any interleaving of batch successes and failures, the inter-batch
delay starts at `initialDelay`, is monotonically non-decreasing, and never
exceeds `maxDelay`, given `0 <= initialDelay <= maxDelay` and
`backoffFactor >= 1`; in particular, a successful batch never resets the delay
downward. -/
theorem delay_monotone_never_exceeds_max (cfg : RateLimitConfig)
    (tokens : List TokenRecord) (outcomes : List Bool)
    (h0 : 0 ≤ cfg.initialDelay) (h1 : cfg.initialDelay ≤ cfg.maxDelay)
    (hf : 1 ≤ cfg.backoffFactor) :
    (processTokensInBatchesWith cfg tokens outcomes).2.head? = some cfg.initialDelay ∧
      List.Chain' (· ≤ ·) (processTokensInBatchesWith cfg tokens outcomes).2 ∧
      ∀ x ∈ (processTokensInBatchesWith cfg tokens outcomes).2, x ≤ cfg.maxDelay := by
  obtain ⟨hc, hb⟩ := batchLoop_mono_bounded cfg (makeBatches tokens) outcomes
    cfg.initialDelay h0 h1 hf
  exact ⟨batchLoop_head cfg (makeBatches tokens) outcomes cfg.initialDelay, hc, hb⟩

/-- Witness for C4: the delay trace of a two-batch run of the collector's
`RATE_LIMIT` configuration with a failing first batch. -/
theorem delay_monotone_never_exceeds_max_witness :
    (processTokensInBatchesWith RATE_LIMIT [sampleToken] [false]).2.head? =
        some RATE_LIMIT.initialDelay ∧
      List.Chain' (· ≤ ·) (processTokensInBatchesWith RATE_LIMIT [sampleToken] [false]).2 ∧
      ∀ x ∈ (processTokensInBatchesWith RATE_LIMIT [sampleToken] [false]).2,
        x ≤ RATE_LIMIT.maxDelay :=
  delay_monotone_never_exceeds_max RATE_LIMIT [sampleToken] [false]
    (by norm_num [RATE_LIMIT]) (by norm_num [RATE_LIMIT]) (by norm_num [RATE_LIMIT])

/-- The one-token input forms a single batch. -/
theorem makeBatches_sampleToken : makeBatches [sampleToken] = [[sampleToken]] := by
  rw [makeBatches]
  rw [List.take_of_length_le (by norm_num [maxBatchSize]),
    List.drop_eq_nil_of_le (by norm_num [maxBatchSize])]
  rw [makeBatches]

/-- Counterexample to claim C5 as stated: on the failure of the only batch,
the delay escalates from 1000 to `min(1000 * 1.5 * 2, 30000) = 3000`, not to
`initialDelay * backoffFactor = 1500`. -/
theorem failure_escalation_counterexample :
    (processTokensInBatches [sampleToken] [false]).2 = [1000, 3000] ∧
      RATE_LIMIT.initialDelay * RATE_LIMIT.backoffFactor = 1500 ∧ (3000 : ℚ) ≠ 1500 := by
  refine ⟨?_, by norm_num [RATE_LIMIT], by norm_num⟩
  simp only [processTokensInBatches, processTokensInBatchesWith, makeBatches_sampleToken]
  norm_num [batchLoop, nextDelay, RATE_LIMIT, min_def]

/-- Claim C5, amended: when a batch fails inside `processTokensInBatches`, the
delay is escalated by multiplying it by `backoffFactor * 2` (capped at
`maxDelay`), and the failure does not abort the remaining batches: every batch
of the partition is handed to the storage layer. -/
theorem failure_escalates_double_and_continues (cfg : RateLimitConfig)
    (tokens : List TokenRecord) (outcomes : List Bool) :
    (processTokensInBatchesWith cfg tokens outcomes).1 = makeBatches tokens ∧
      ∀ i, i < (makeBatches tokens).length → outcomes.getD i true = false →
        (processTokensInBatchesWith cfg tokens outcomes).2.getD (i + 1) 0 =
          min ((processTokensInBatchesWith cfg tokens outcomes).2.getD i 0 *
            cfg.backoffFactor * 2) cfg.maxDelay :=
  ⟨batchLoop_fst cfg (makeBatches tokens) outcomes cfg.initialDelay,
   fun i hi hout =>
     batchLoop_failure_step cfg (makeBatches tokens) outcomes cfg.initialDelay i hi hout⟩

/-- Witness for the amended C5: a one-batch run whose batch fails. -/
theorem failure_escalates_double_and_continues_witness :
    (processTokensInBatchesWith RATE_LIMIT [sampleToken] [false]).1 =
        makeBatches [sampleToken] ∧
      (processTokensInBatchesWith RATE_LIMIT [sampleToken] [false]).2.getD 1 0 =
        min ((processTokensInBatchesWith RATE_LIMIT [sampleToken] [false]).2.getD 0 0 *
          RATE_LIMIT.backoffFactor * 2) RATE_LIMIT.maxDelay :=
  ⟨(failure_escalates_double_and_continues RATE_LIMIT [sampleToken] [false]).1,
   (failure_escalates_double_and_continues RATE_LIMIT [sampleToken] [false]).2 0
     (by rw [makeBatches_sampleToken]; norm_num) (by simp)⟩

/-! ## Lemmas about the scan window -/

/-- When the whole range fits inside one chunk, the chunk loop issues exactly
one `getLogs` query, over `[chunkStart, currentBlock]`. -/
theorem chunkRanges_single (s cur : ℕ) (h1 : s < cur) (h2 : cur - s < CHUNK_SIZE) :
    chunkRanges s cur = [(s, cur)] := by
  rw [chunkRanges, if_pos h1, chunkRanges,
    if_neg (by simp only [CHUNK_SIZE] at h2 ⊢; omega)]
  simp only [CHUNK_SIZE] at h2 ⊢
  rw [min_eq_right (by omega)]

/-- In a cycle with `lastProcessedBlock < currentBlock`, the issued `getLogs`
queries amount to the single range
`[currentBlock - min(currentBlock - lastProcessedBlock, MAX_BLOCKS_PER_SCAN), currentBlock]`:
the trailing slice of the chain ending at the observed height. -/
theorem scanChunks_single (last cur : ℕ) (h : last < cur) :
    scanChunks last cur = [(cur - min (cur - last) MAX_BLOCKS_PER_SCAN, cur)] := by
  have hs : startBlock last cur = cur - min (cur - last) MAX_BLOCKS_PER_SCAN := by
    simp [startBlock, scanRange]
  rw [scanChunks, hs]
  refine chunkRanges_single _ _ ?_ ?_
  · simp only [MAX_BLOCKS_PER_SCAN]
    omega
  · simp only [MAX_BLOCKS_PER_SCAN, CHUNK_SIZE]
    omega

/-- Coverage by a single query range is interval membership. -/
theorem coveredBlock_single (f t b : ℕ) : coveredBlock [(f, t)] b ↔ f ≤ b ∧ b ≤ t := by
  simp [coveredBlock]

/-- Counterexample to claim C1 as stated: with cursor 0 and current height 1000
the claim demands the leading bounded slice `[1, 500]`, but the cycle queries
`[500, 1000]` — block 1 (immediately after the cursor) is not queried while
block 1000 (outside the claimed slice) is. -/
theorem scan_window_counterexample :
    scanChunks 0 1000 = [(500, 1000)] ∧ ¬ coveredBlock (scanChunks 0 1000) 1 ∧
      coveredBlock (scanChunks 0 1000) 1000 := by
  have hc : scanChunks 0 1000 = [(500, 1000)] := by
    simpa [MAX_BLOCKS_PER_SCAN] using scanChunks_single 0 1000 (by norm_num)
  refine ⟨hc, ?_, ?_⟩ <;> rw [hc] <;> decide

/-- Claim C1, amended: for every cursor value and observed height with
`lastProcessedBlock < currentHeight`, the cycle queries exactly the trailing
range `[currentHeight - min(currentHeight - lastProcessedBlock, MAX_BLOCKS_PER_SCAN), currentHeight]`:
when the unscanned range is within the bound this re-includes the cursor block
itself, and when it exceeds the bound only the slice immediately below the
observed height is queried, skipping the blocks immediately after the cursor
(which are not revisited, since the cursor then advances to `currentHeight`). -/
theorem scan_window_is_trailing_slice (last cur : ℕ) (h : last < cur) :
    scanChunks last cur = [(cur - min (cur - last) MAX_BLOCKS_PER_SCAN, cur)] ∧
      ∀ b, coveredBlock (scanChunks last cur) b ↔
        cur - min (cur - last) MAX_BLOCKS_PER_SCAN ≤ b ∧ b ≤ cur := by
  have hc := scanChunks_single last cur h
  refine ⟨hc, fun b => ?_⟩
  rw [hc, coveredBlock_single]

/-- Witness for the amended C1 at cursor 0 and height 1000. -/
theorem scan_window_is_trailing_slice_witness :
    scanChunks 0 1000 = [(1000 - min (1000 - 0) MAX_BLOCKS_PER_SCAN, 1000)] ∧
      coveredBlock (scanChunks 0 1000) 700 := by
  have h := scan_window_is_trailing_slice 0 1000 (by norm_num)
  exact ⟨h.1, (h.2 700).mpr (by simp [MAX_BLOCKS_PER_SCAN])⟩

/-- Counterexample to claim C3 as stated: on a cold start (no state file) the
cursor reads 0, not the chain height, and at height 100000 the cycle queries
`[99500, 100000]`; block 99500 is queried although it lies outside the claimed
window `[99901, 100000]`. -/
theorem cold_start_counterexample :
    getLastProcessedBlock none = 0 ∧
      scanChunks (getLastProcessedBlock none) 100000 = [(99500, 100000)] ∧
      coveredBlock (scanChunks (getLastProcessedBlock none) 100000) 99500 ∧
      ¬ (99901 ≤ 99500) := by
  have hc : scanChunks (getLastProcessedBlock none) 100000 = [(99500, 100000)] := by
    simpa [MAX_BLOCKS_PER_SCAN, getLastProcessedBlock] using
      scanChunks_single 0 100000 (by norm_num)
  refine ⟨rfl, hc, ?_, by norm_num⟩
  rw [hc]
  decide

/-- Claim C3, amended: on a cold start with no existing cursor record the
cursor reads 0; the scanner does not seed itself from the chain height, but
the `MAX_BLOCKS_PER_SCAN = 500` clamp still bounds the cycle to a recent
window, never genesis: with current height 100000 the cycle queries exactly
blocks `[99500, 100000]`. -/
theorem cold_start_scans_trailing_500 :
    getLastProcessedBlock none = 0 ∧
      ∀ b, coveredBlock (scanChunks (getLastProcessedBlock none) 100000) b ↔
        99500 ≤ b ∧ b ≤ 100000 := by
  have hc : scanChunks (getLastProcessedBlock none) 100000 = [(99500, 100000)] := by
    simpa [MAX_BLOCKS_PER_SCAN, getLastProcessedBlock] using
      scanChunks_single 0 100000 (by norm_num)
  refine ⟨rfl, fun b => ?_⟩
  rw [hc, coveredBlock_single]

/-- Claim C2: in one `fetchAndStoreTokens` cycle, the cursor is written only
when the observed height strictly exceeds the cursor read at cycle start; the
write is the final event of the trace — in particular it comes after every
`storeTokens` persistence call, whatever the per-batch outcomes — and the
written value equals the observed height (hence is strictly above the previous
cursor and never beyond the observed height). -/
theorem cursor_saved_last_and_monotone (last cur : ℕ) (tokens : List TokenRecord)
    (outcomes : List Bool) :
    (cur ≤ last → fetchAndStoreTokensTrace last cur tokens outcomes = []) ∧
      (last < cur →
        ∃ pre, fetchAndStoreTokensTrace last cur tokens outcomes =
            pre ++ [CycleEvent.saveCursor cur] ∧
          ∀ v, CycleEvent.saveCursor v ∉ pre) ∧
      (∀ v, CycleEvent.saveCursor v ∈ fetchAndStoreTokensTrace last cur tokens outcomes →
        last < v ∧ v ≤ cur) := by
  refine ⟨fun h => by simp [fetchAndStoreTokensTrace, h], fun h => ?_, fun v hv => ?_⟩
  · have hn : ¬ cur ≤ last := by omega
    refine ⟨((scanChunks last cur).map fun c => CycleEvent.queryLogs c.1 c.2)
        ++ (if 0 < tokens.length then
              (processTokensInBatches tokens outcomes).1.map CycleEvent.persistBatch
            else []), ?_, ?_⟩
    · rw [fetchAndStoreTokensTrace, if_neg hn, List.append_assoc]
    · intro v hv
      simp only [List.mem_append, List.mem_map] at hv
      rcases hv with ⟨c, _, hc⟩ | hv
      · simp at hc
      · by_cases ht : 0 < tokens.length
        · simp only [if_pos ht, List.mem_map] at hv
          obtain ⟨bat, _, hb⟩ := hv
          simp at hb
        · simp [if_neg ht] at hv
  · by_cases h : cur ≤ last
    · simp [fetchAndStoreTokensTrace, h] at hv
    · rw [fetchAndStoreTokensTrace, if_neg h] at hv
      rcases List.mem_append.mp hv with hAB | hC
      · rcases List.mem_append.mp hAB with hA | hB
        · obtain ⟨c, _, hc⟩ := List.mem_map.mp hA
          simp at hc
        · by_cases ht : 0 < tokens.length
          · rw [if_pos ht] at hB
            obtain ⟨bat, _, hb⟩ := List.mem_map.mp hB
            simp at hb
          · rw [if_neg ht] at hB
            simp at hB
      · have heq : CycleEvent.saveCursor v = CycleEvent.saveCursor cur :=
          List.mem_singleton.mp hC
        have hcur : v = cur := by injection heq
        omega

/-- Witness for C2: a cycle from cursor 10 at height 12 ends with the cursor
write of 12. -/
theorem cursor_saved_last_and_monotone_witness :
    ∃ pre, fetchAndStoreTokensTrace 10 12 [sampleToken] [false] =
        pre ++ [CycleEvent.saveCursor 12] ∧ ∀ v, CycleEvent.saveCursor v ∉ pre :=
  (cursor_saved_last_and_monotone 10 12 [sampleToken] [false]).2.1 (by norm_num)

/-! ## Lemmas about deployer resolution -/

/-- A deployer produced by path 2 (transaction-input decoding) is never an
excluded address. -/
theorem resolve_txInput_not_excluded (txHash : ℕ) (tx : Option Transaction) (legacy : ℕ)
    (h : (resolveFinalDeployer txHash tx legacy).2 = ResolvedVia.txInput) :
    ∃ a, (resolveFinalDeployer txHash tx legacy).1 = DeployerValue.addr a ∧
      shouldExcludeAddress (some a) = false := by
  rcases hd : getDeployerFromTransaction txHash tx with _ | ⟨pd, src⟩
  · simp only [resolveFinalDeployer, hd] at h ⊢
    by_cases hle : shouldExcludeAddress (some legacy) = false
    · rw [if_pos hle] at h
      simp at h
    · rw [if_neg hle] at h
      rcases tx with _ | t
      · simp at h
      · rcases hs : t.sender with _ | f <;> simp only [hs] at h <;> simp at h
  · simp only [resolveFinalDeployer, hd] at h ⊢
    by_cases hpd : shouldExcludeAddress (some pd) = false
    · rw [if_pos hpd] at h ⊢
      rcases src with _ | _
      · simp at h
      · exact ⟨pd, rfl, hpd⟩
    · rw [if_neg hpd] at h ⊢
      by_cases hle : shouldExcludeAddress (some legacy) = false
      · rw [if_pos hle] at h
        simp at h
      · rw [if_neg hle] at h
        rcases tx with _ | t
        · simp at h
        · rcases hs : t.sender with _ | f <;> simp only [hs] at h <;> simp at h

/-- A deployer produced by path 3 (the legacy event deployer) is never an
excluded address. -/
theorem resolve_legacyEvent_not_excluded (txHash : ℕ) (tx : Option Transaction) (legacy : ℕ)
    (h : (resolveFinalDeployer txHash tx legacy).2 = ResolvedVia.legacyEvent) :
    ∃ a, (resolveFinalDeployer txHash tx legacy).1 = DeployerValue.addr a ∧
      shouldExcludeAddress (some a) = false := by
  rcases hd : getDeployerFromTransaction txHash tx with _ | ⟨pd, src⟩
  · simp only [resolveFinalDeployer, hd] at h ⊢
    by_cases hle : shouldExcludeAddress (some legacy) = false
    · rw [if_pos hle]
      exact ⟨legacy, rfl, hle⟩
    · rw [if_neg hle] at h
      rcases tx with _ | t
      · simp at h
      · rcases hs : t.sender with _ | f <;> simp only [hs] at h <;> simp at h
  · simp only [resolveFinalDeployer, hd] at h ⊢
    by_cases hpd : shouldExcludeAddress (some pd) = false
    · rw [if_pos hpd] at h
      rcases src with _ | _ <;> simp at h
    · rw [if_neg hpd] at h ⊢
      by_cases hle : shouldExcludeAddress (some legacy) = false
      · rw [if_pos hle]
        exact ⟨legacy, rfl, hle⟩
      · rw [if_neg hle] at h
        rcases tx with _ | t
        · simp at h
        · rcases hs : t.sender with _ | f <;> simp only [hs] at h <;> simp at h

/-- Claim C6: deployer resolution never returns an excluded address via path 2
(transaction-input decoding) or path 3 (legacy event deployer), but path 4
(the transaction sender) may: with a transaction sent by the excluded relay
address, calldata that is not the deploy method, and an excluded (zero)
legacy deployer, the cascade returns the relay address via the sender path. -/
theorem deployer_never_excluded_via_paths_2_3 :
    (∀ (txHash : ℕ) (tx : Option Transaction) (legacyDeployer : ℕ),
      ((resolveFinalDeployer txHash tx legacyDeployer).2 = ResolvedVia.txInput →
        ∃ a, (resolveFinalDeployer txHash tx legacyDeployer).1 = DeployerValue.addr a ∧
          shouldExcludeAddress (some a) = false) ∧
      ((resolveFinalDeployer txHash tx legacyDeployer).2 = ResolvedVia.legacyEvent →
        ∃ a, (resolveFinalDeployer txHash tx legacyDeployer).1 = DeployerValue.addr a ∧
          shouldExcludeAddress (some a) = false)) ∧
    ((resolveFinalDeployer 1 (some txFromRelay) 0).1 = DeployerValue.addr relayAddress ∧
      (resolveFinalDeployer 1 (some txFromRelay) 0).2 = ResolvedVia.txSender ∧
      shouldExcludeAddress (some relayAddress) = true) :=
  ⟨fun txHash tx legacyDeployer =>
    ⟨resolve_txInput_not_excluded txHash tx legacyDeployer,
     resolve_legacyEvent_not_excluded txHash tx legacyDeployer⟩,
   by decide, by decide, by decide⟩

/-- Witness for C6: a transaction whose calldata decodes to the non-excluded
`_deployer` argument 5 resolves via path 2 to a non-excluded address. -/
theorem deployer_never_excluded_via_paths_2_3_witness :
    ∃ a, (resolveFinalDeployer 1 (some txWithDeployerArg) 0).1 = DeployerValue.addr a ∧
      shouldExcludeAddress (some a) = false :=
  (deployer_never_excluded_via_paths_2_3.1 1 (some txWithDeployerArg) 0).1 (by decide)

/-- Claim C7: a pool entry is appended by `findV3Pools` only when the factory
lookup returned a non-zero pool address and the pool's two constituent tokens
include the probed token address. -/
theorem pool_recorded_only_if_verified (env : PoolChain) (tokenAddress : ℕ)
    (e : PoolEntry) (he : e ∈ findV3Pools env tokenAddress) :
    e.address ≠ 0 ∧
      (env.token0 e.address = some tokenAddress ∨
        env.token1 e.address = some tokenAddress) := by
  obtain ⟨pair, _, hfm⟩ := List.mem_flatMap.mp he
  obtain ⟨fee, _, hp⟩ := List.mem_filterMap.mp hfm
  unfold probePool at hp
  split at hp
  · exact absurd hp (by simp)
  · rename_i p hg
    split at hp
    · exact absurd hp (by simp)
    · rename_i hz
      split at hp
      · exact absurd hp (by simp)
      · rename_i liq hl
        split at hp
        · rename_i t0 t1 h0 h1
          split at hp
          · exact absurd hp (by simp)
          · rename_i hv
            have he2 := Option.some.inj hp
            subst he2
            refine ⟨hz, ?_⟩
            have hor : t0 = tokenAddress ∨ t1 = tokenAddress := by tauto
            rcases hor with hor | hor
            · exact Or.inl (by rw [h0, hor])
            · exact Or.inr (by rw [h1, hor])
        · exact absurd hp (by simp)
        · exact absurd hp (by simp)

/-- Witness for C7, on the concrete one-pool chain environment. -/
theorem pool_recorded_only_if_verified_witness :
    samplePoolEntry.address ≠ 0 ∧
      (samplePoolChain.token0 samplePoolEntry.address = some 123 ∨
        samplePoolChain.token1 samplePoolEntry.address = some 123) :=
  pool_recorded_only_if_verified samplePoolChain 123 samplePoolEntry (by decide)

/-- Counterexample to claim C8 as stated: the decoder stamps `createdAt` with
`new Date()`, so two calls on the same log at different wall-clock instants
return different records. -/
theorem decode_not_deterministic_counterexample :
    decodeTokenCreatedEvent constDecode sampleLog 0 ≠
      decodeTokenCreatedEvent constDecode sampleLog 1 := by
  decide

/-- Claim C8, amended: `decodeTokenCreatedEvent` is deterministic in every
field except the `createdAt` wall-clock stamp: for one (deterministic) ABI
decode primitive, two calls on the same log agree on success or failure and,
on success, on the contract address, name, symbol, decimals, deployer and
block number. -/
theorem decode_deterministic_up_to_timestamp
    (abiDecode : List ℕ → Option DecodedTokenEvent) (log : LogRecord) (t1 t2 : ℕ) :
    (decodeTokenCreatedEvent abiDecode log t1).map dropCreatedAt =
      (decodeTokenCreatedEvent abiDecode log t2).map dropCreatedAt := by
  unfold decodeTokenCreatedEvent
  cases abiDecode log.data <;> simp [dropCreatedAt]

/-! ## Lemmas about the token store -/

/-- Inserting a fresh document for `t` and then replaying writes is the same
as replaying the writes over a store without the key, with `t` prepended to
the key's write list. -/
theorem finalDoc_insert (t : TokenRecord) (l : List TokenRecord) :
    finalDoc (some { fields := t.fields, blockNumber := t.blockNumber }) l =
      finalDoc none (t :: l) := by
  cases l with
  | nil => simp [finalDoc]
  | cons b l2 =>
    rcases hgl : (b :: l2).getLast? with _ | tl
    · simp at hgl
    · simp [finalDoc, List.getLast?_cons_cons, hgl]

/-- Updating the document at a key already holding `d` and then replaying
writes is the same as replaying the writes with `t` prepended. -/
theorem finalDoc_update (t d : TokenRecord) (l : List TokenRecord) :
    finalDoc (some { fields := t.fields, blockNumber := d.blockNumber }) l =
      finalDoc (some d) (t :: l) := by
  cases l with
  | nil => simp [finalDoc]
  | cons b l2 =>
    rcases hgl : (b :: l2).getLast? with _ | tl
    · simp at hgl
    · simp [finalDoc, List.getLast?_cons_cons, hgl]

/-- Replaying the same per-key write list over its own outcome changes
nothing. -/
theorem finalDoc_idem (sa : Option TokenRecord) (l : List TokenRecord) :
    finalDoc (finalDoc sa l) l = finalDoc sa l := by
  rcases hgl : l.getLast? with _ | tl
  · simp [finalDoc, hgl]
  · simp [finalDoc, hgl]

/-- Closed form of the store a bulk write leaves at each key: the previous
document at that key combined (via `finalDoc`) with the ordered writes whose
lowercased contract address is that key. -/
theorem runBulk_store_char (ts : List TokenRecord) (s : TokenStore) (a : String) :
    (runBulk ts s).1 a =
      finalDoc (s a) (ts.filter fun t => lowerStr t.fields.contractAddress = a) := by
  induction ts generalizing s with
  | nil => simp [runBulk, finalDoc]
  | cons t ts ih =>
    by_cases ha : lowerStr t.fields.contractAddress = a
    · rcases hk : s (lowerStr t.fields.contractAddress) with _ | doc
      · simp only [runBulk, hk]
        rw [ih]
        have hset : TokenStore.set s (lowerStr t.fields.contractAddress)
            { fields := t.fields, blockNumber := t.blockNumber } a =
            some { fields := t.fields, blockNumber := t.blockNumber } := by
          simp [TokenStore.set, ha.symm]
        have hsa : s a = none := by
          rw [← ha]
          exact hk
        rw [hset, hsa, List.filter_cons_of_pos (by simp [ha])]
        exact finalDoc_insert t _
      · simp only [runBulk, hk]
        rw [ih]
        have hset : TokenStore.set s (lowerStr t.fields.contractAddress)
            { fields := t.fields, blockNumber := doc.blockNumber } a =
            some { fields := t.fields, blockNumber := doc.blockNumber } := by
          simp [TokenStore.set, ha.symm]
        have hsa : s a = some doc := by
          rw [← ha]
          exact hk
        rw [hset, hsa, List.filter_cons_of_pos (by simp [ha])]
        exact finalDoc_update t doc _
    · rcases hk : s (lowerStr t.fields.contractAddress) with _ | doc
      · simp only [runBulk, hk]
        rw [ih]
        have hset : TokenStore.set s (lowerStr t.fields.contractAddress)
            { fields := t.fields, blockNumber := t.blockNumber } a = s a := by
          simp only [TokenStore.set]
          rw [if_neg (fun hh => ha hh.symm)]
        rw [hset, List.filter_cons_of_neg (by simp [ha])]
      · simp only [runBulk, hk]
        rw [ih]
        have hset : TokenStore.set s (lowerStr t.fields.contractAddress)
            { fields := t.fields, blockNumber := doc.blockNumber } a = s a := by
          simp only [TokenStore.set]
          rw [if_neg (fun hh => ha hh.symm)]
        rw [hset, List.filter_cons_of_neg (by simp [ha])]

/-- After a bulk write, the key of every written token holds a document. -/
theorem runBulk_present (ts : List TokenRecord) (s : TokenStore) (t : TokenRecord)
    (ht : t ∈ ts) : ((runBulk ts s).1 (lowerStr t.fields.contractAddress)).isSome := by
  rw [runBulk_store_char]
  have hmem : t ∈ ts.filter
      (fun x => lowerStr x.fields.contractAddress = lowerStr t.fields.contractAddress) :=
    List.mem_filter.mpr ⟨ht, by simp⟩
  have hne := List.ne_nil_of_mem hmem
  rcases hgl : (ts.filter
      (fun x => lowerStr x.fields.contractAddress = lowerStr t.fields.contractAddress)).getLast?
    with _ | tl
  · rw [List.getLast?_eq_none_iff] at hgl
    exact absurd hgl hne
  · simp [finalDoc, hgl]

/-- A bulk write whose keys are all already present inserts nothing. -/
theorem runBulk_count_zero (ts : List TokenRecord) (s : TokenStore)
    (h : ∀ t ∈ ts, (s (lowerStr t.fields.contractAddress)).isSome) :
    (runBulk ts s).2.1 = 0 := by
  induction ts generalizing s with
  | nil => rfl
  | cons t ts ih =>
    have hk := h t (List.mem_cons_self t ts)
    rcases hk2 : s (lowerStr t.fields.contractAddress) with _ | doc
    · rw [hk2] at hk
      simp at hk
    · simp only [runBulk, hk2]
      apply ih
      intro u hu
      by_cases hu2 : lowerStr u.fields.contractAddress = lowerStr t.fields.contractAddress
      · simp [TokenStore.set, hu2]
      · simp only [TokenStore.set]
        rw [if_neg hu2]
        exact h u (List.mem_cons_of_mem t hu)

/-- Claim C9: `storeTokens` is idempotent on its bulk-write path: applying the
same token list twice leaves the same stored state as applying it once, and
the second application reports zero new inserts. -/
theorem storeTokens_idempotent (tokens : List TokenRecord) (store : TokenStore) :
    (storeTokens tokens (storeTokens tokens store).1).1 = (storeTokens tokens store).1 ∧
      (storeTokens tokens (storeTokens tokens store).1).2.newTokens = 0 := by
  by_cases hn : tokens.length = 0
  · simp [storeTokens, hn]
  · constructor
    · simp only [storeTokens, if_neg hn]
      funext a
      rw [runBulk_store_char, runBulk_store_char]
      exact finalDoc_idem _ _
    · simp only [storeTokens, if_neg hn]
      exact runBulk_count_zero tokens (runBulk tokens store).1
        (fun t ht => runBulk_present tokens store t ht)

/-- Claim C10: a bulk-path `storeTokens` call never changes the `blockNumber`
of a token already present in the store: the key still holds a document, and
its block number is the pre-existing one (`blockNumber` is written only via
`$setOnInsert`). -/
theorem storeTokens_preserves_blockNumber (tokens : List TokenRecord)
    (store : TokenStore) (a : String) (d : TokenRecord) (h : store a = some d) :
    ∃ d2, (storeTokens tokens store).1 a = some d2 ∧ d2.blockNumber = d.blockNumber := by
  by_cases hn : tokens.length = 0
  · exact ⟨d, by simp [storeTokens, hn, h], rfl⟩
  · simp only [storeTokens, if_neg hn]
    rw [runBulk_store_char, h]
    rcases hgl : (tokens.filter fun t => lowerStr t.fields.contractAddress = a).getLast?
      with _ | tl
    · exact ⟨d, by simp [finalDoc, hgl], rfl⟩
    · exact ⟨{ fields := tl.fields, blockNumber := d.blockNumber },
        by simp [finalDoc, hgl], rfl⟩

/-- Witness for C10: writing `sampleToken` (block 4100) over a store whose
document at the same key has block 4000 keeps block number 4000. -/
theorem storeTokens_preserves_blockNumber_witness :
    ∃ d2, (storeTokens [sampleToken] sampleStore).1 "0xabc" = some d2 ∧
      d2.blockNumber = sampleStoredDoc.blockNumber :=
  storeTokens_preserves_blockNumber [sampleToken] sampleStore "0xabc" sampleStoredDoc
    (by decide)

end TokenScraper
